import Mathlib

/-
Verification of the anchoring public API of the exonum-btc-anchoring service
(src/api/mod.rs), over a shallow embedding into Lean.

Conventions of the embedding:
* Machine integers (`u64`, `u32`) are `Nat` with explicit wrap-around
  (`% 2 ^ 64`) at the points where the Rust code can overflow or underflow.
* A Rust `panic!` / `unwrap` failure is the `panicked` constructor of
  `PanicOr`; a normal return is `ok`.
* The stateless pieces whose bodies live outside `src/api/mod.rs`
  (transaction classification, schema accessors, proof generators,
  redeem-script construction) are modelled from the specification; each
  such definition carries a doc comment starting with `Modelled from the
  spec:`.  All code translated from `src/api/mod.rs` itself carries the
  corresponding Rust names.
-/

/-- `TxId` of a bitcoin transaction (a fixed-length hash, abstracted to a
natural number). -/
abbrev TxId := Nat

/-- An exonum hash value. -/
abbrev Hash := Nat

/-- A bitcoin public key of a validator (`anchoring_keys` entry). -/
abbrev PubKey := Nat

/-- Modelled from the spec: `AnchoringPayload` — a structured record embedded
in an anchoring transaction's output script: ledger block height and ledger
block hash. -/
structure Payload where
  blockHeight : Nat
  blockHash : Hash
deriving DecidableEq, Repr

/-- Modelled from the spec: `RawExternalTx` / `BitcoinTx` — the raw form of an
external-chain transaction, read-only to the core.  We keep its identifying
hash, the bytes of the designated metadata output (from which an anchoring
payload may be parsed) and whether the transaction matches the
funding-transaction shape. -/
structure BitcoinTx where
  txid : TxId
  metadataOutput : List Nat
  fundingShape : Bool
deriving DecidableEq, Repr

/-- Modelled from the spec: payload parsing ("attempt to parse a recognized
anchoring payload from the transaction's designated metadata output");
malformed or truncated bytes degrade to `none`, so parsing is total over all
byte strings.  The concrete wire format is owned by the excluded
external-chain adapter; we fix a minimal two-word encoding. -/
def parsePayload : List Nat → Option Payload
  | [h, bh] => some ⟨h, bh⟩
  | _ => none

/-- `TxKind` — the tagged variant over a raw transaction
(`details::btc::transactions::TxKind`): `Anchoring`, `FundingTx` or `Other`.
Each variant keeps the underlying transaction. -/
inductive TxKind where
  | anchoring (tx : BitcoinTx) (payload : Payload)
  | fundingTx (tx : BitcoinTx)
  | other (tx : BitcoinTx)
deriving DecidableEq, Repr

/-- Modelled from the spec: `TxKind::from` / `classify(tx) -> TxKind` — a
deterministic, total function of the transaction: if a payload parses from
the metadata output the transaction is `Anchoring(payload)`; else if it
matches the funding shape it is `FundingTx`; else `Other`. -/
def TxKind.classify (tx : BitcoinTx) : TxKind :=
  match parsePayload tx.metadataOutput with
  | some p => .anchoring tx p
  | none => if tx.fundingShape then .fundingTx tx else .other tx

/-- Result of a Rust computation that can `panic!`. -/
inductive PanicOr (α : Type) where
  | panicked (msg : String)
  | ok (a : α)
deriving DecidableEq, Repr

/-- `AnchoringInfo` — public information about the anchoring transaction:
its `txid` and its optional payload. -/
structure AnchoringInfo where
  txid : TxId
  payload : Option Payload
deriving DecidableEq, Repr

/-- `impl From<BitcoinTx> for AnchoringInfo` (src/api/mod.rs, lines 73–87):
classifies the transaction; an `Anchoring` transaction yields its id and
`Some` payload, a `FundingTx` yields its id and `None`, and an `Other`
transaction makes the process panic with a message about the incorrect lect
transaction. -/
def AnchoringInfo.fromTx (tx : BitcoinTx) : PanicOr AnchoringInfo :=
  match TxKind.classify tx with
  | .anchoring atx p => .ok ⟨atx.txid, some p⟩
  | .fundingTx ftx => .ok ⟨ftx.txid, none⟩
  | .other _ => .panicked "Found incorrect lect transaction"

/-- `LectContent` — one stored lect record: the hash of the exonum message
that carried the report and the reported bitcoin transaction. -/
structure LectContent where
  msgHash : Hash
  tx : BitcoinTx
deriving DecidableEq, Repr

/-- `LectInfo` — public information about the lect transaction: the exonum
message hash and the `AnchoringInfo` of the transaction. -/
structure LectInfo where
  hash : Hash
  content : AnchoringInfo
deriving DecidableEq, Repr

/-- `impl From<LectContent> for LectInfo` (src/api/mod.rs, lines 89–96);
propagates the panic of `AnchoringInfo::from`. -/
def LectInfo.fromContent (c : LectContent) : PanicOr LectInfo :=
  match AnchoringInfo.fromTx c.tx with
  | .ok info => .ok ⟨c.msgHash, info⟩
  | .panicked m => .panicked m

/-- Modelled from the spec: the redeem script of an anchoring configuration —
the multisignature locking condition: the quorum threshold together with the
ordered validator keys.  The byte-level script encoding is owned by the
excluded Bitcoin-script collaborator; "which keys, in what order, with what
threshold" is what the core owns, and the script is a deterministic function
of exactly that data. -/
structure RedeemScript where
  quorum : Nat
  keys : List PubKey
deriving DecidableEq, Repr

/-- Modelled from the spec: a bitcoin address, derived deterministically from
a redeem script (hashing and base58 formatting are the excluded
collaborator's; we keep the script data the address commits to). -/
structure Address where
  scriptData : RedeemScript
deriving DecidableEq, Repr

/-- Modelled from the spec: the BFT quorum threshold for `n` validators,
`threshold = floor(2*n/3) + 1` (strictly more than two thirds). -/
def threshold (n : Nat) : Nat := 2 * n / 3 + 1

/-- `AnchoringConfig` — the active validator configuration: the ordered,
index-addressable list of validators' bitcoin public keys, plus further
fields (funding data, fee policy, …) irrelevant to address derivation,
abstracted as `misc`. -/
structure AnchoringConfig where
  anchoringKeys : List PubKey
  misc : Nat
deriving DecidableEq, Repr

/-- Modelled from the spec: `AnchoringConfig::redeem_script` — builds the
multisignature redeem script from the config's key set and the quorum
threshold derived from its size, together with the address of that
script. -/
def AnchoringConfig.redeemScript (cfg : AnchoringConfig) : RedeemScript × Address :=
  let script : RedeemScript := ⟨threshold cfg.anchoringKeys.length, cfg.anchoringKeys⟩
  (script, ⟨script⟩)

/-- `BlockProof` — a block together with the precommit messages authorizing
it (the exonum core type; abstracted to the block height and hash it
certifies). -/
structure BlockProof where
  height : Nat
  blockHash : Hash
deriving DecidableEq, Repr

/-- A `MapProof` from the core schema state root to a service table
(abstracted to the state data it was generated from). -/
structure MapProof where
  stateRoot : Hash
  serviceId : Nat
  tableIdx : Nat
deriving DecidableEq, Repr

/-- A `ListProof` for one index of a `ProofListIndex`: either a membership
proof exhibiting the element, or a non-membership (absence) proof for an
index beyond the stored length. -/
inductive ListProof where
  | membership (index : Nat) (value : Hash)
  | absence (index : Nat) (len : Nat)
deriving DecidableEq, Repr

/-- An immutable point-in-time snapshot of ledger storage, holding the
tables the public API reads.  `blockHashes` is the core schema's
`block_hashes_by_height` table, `stateRoot` its state hash; `lectsOf` gives
the per-validator-key append-log of lect records in recording order;
`txChain` is the anchoring schema's `anchoring_tx_chain` in iteration order;
`anchoredBlocks` is the anchoring schema's height-indexed table of anchored
block hashes. -/
structure Snapshot where
  blockHashes : List Hash
  stateRoot : Hash
  cfg : AnchoringConfig
  followingCfg : Option AnchoringConfig
  lectsOf : PubKey → List LectContent
  txChain : List (Nat × BitcoinTx)
  anchoredBlocks : List Hash

/-- Modelled from the spec: the core schema's `block_and_precommits(height)`
— the block-and-signatures proof for a committed height, `none` when no
block exists at that height. -/
def blockAndPrecommits (s : Snapshot) (h : Nat) : Option BlockProof :=
  if hlt : h < s.blockHashes.length then some ⟨h, s.blockHashes.get ⟨h, hlt⟩⟩
  else none

/-- Modelled from the spec: `get_proof_to_service_table(service_id, 0)` — the
inclusion proof of a service table in the committed state, generated from
the snapshot's state root. -/
def getProofToServiceTable (s : Snapshot) (serviceId tableIdx : Nat) : MapProof :=
  ⟨s.stateRoot, serviceId, tableIdx⟩

/-- Modelled from the spec: `ProofListIndex::get_proof(index)` over the
`anchored_blocks` table — a membership proof when the index holds an entry,
a non-membership proof otherwise ("the entry may be absent; the caller is
expected to interpret a missing leaf as not yet anchored at exactly this
height"). -/
def listGetProof (tbl : List Hash) (index : Nat) : ListProof :=
  if hlt : index < tbl.length then .membership index (tbl.get ⟨index, hlt⟩)
  else .absence index tbl.length

/-- `ANCHORING_SERVICE_ID` of the service. -/
def ANCHORING_SERVICE_ID : Nat := 3

/-- Modelled from the spec: the latest lect self-reported by each validator
— for validator key `key`, the last entry of the `lects(key)` append-log
(`schema.lects(key).last()`), `none` if that validator never reported. -/
def latestLects (s : Snapshot) : List (Option LectContent) :=
  s.cfg.anchoringKeys.map (fun key => (s.lectsOf key).getLast?)

/-- The number of validators whose latest report names the transaction id
`t` (the cardinality of `t`'s agreement group). -/
def lectCount (latest : List (Option LectContent)) (t : TxId) : Nat :=
  latest.countP (fun o => match o with
    | some c => decide (c.tx.txid = t)
    | none => false)

/-- Modelled from the spec: `AnchoringSchema::collect_lects` — groups the
most-recent lect per validator by transaction id and returns the transaction
of a group whose cardinality reaches the quorum threshold
`floor(2*n/3) + 1` for `n = len(anchoring_keys)`, or `none` if no group
does. -/
def collectLects (s : Snapshot) : Option BitcoinTx :=
  let latest := latestLects s
  let n := s.cfg.anchoringKeys.length
  ((latest.filterMap id).map (fun c => c.tx)).find?
    (fun tx => decide (threshold n ≤ lectCount latest tx.txid))

/-- The exonum `Blockchain` handle held by `PublicApi`.  Calling
`self.blockchain.snapshot()` for the `i`-th time within one API invocation
yields `snapshots i`; distinct indices stand for the (possibly different)
storage states that successive snapshot calls could observe. -/
structure Blockchain where
  snapshots : Nat → Snapshot

/-- `api::error::Error` — the input-validation errors of the public API. -/
inductive ApiErr where
  | unknownValidatorId (id : Nat)
deriving DecidableEq, Repr

/-- `PublicApi::actual_lect` (src/api/mod.rs, lines 102–107): takes one
snapshot, resolves the agreed lect with `collect_lects` under the actual
config, and maps it through `AnchoringInfo::from` (which panics on an
`Other` transaction).  The Rust `Result` is always `Ok`. -/
def PublicApi.actualLect (bc : Blockchain) : PanicOr (Option AnchoringInfo) :=
  let snapshot := bc.snapshots 0
  match collectLects snapshot with
  | none => .ok none
  | some tx =>
    match AnchoringInfo.fromTx tx with
    | .ok info => .ok (some info)
    | .panicked m => .panicked m

/-- `PublicApi::current_lect_of_validator` (src/api/mod.rs, lines 112–123):
takes one snapshot; if the validator index resolves to a key of the actual
config and that key's lect log is non-empty, returns the latest record as
`LectInfo`; in every other case returns `Error::UnknownValidatorId(id)`. -/
def PublicApi.currentLectOfValidator (bc : Blockchain) (id : Nat) :
    PanicOr (Except ApiErr LectInfo) :=
  let snapshot := bc.snapshots 0
  match snapshot.cfg.anchoringKeys.get? id with
  | some key =>
    match (snapshot.lectsOf key).getLast? with
    | some lect =>
      match LectInfo.fromContent lect with
      | .ok info => .ok (.ok info)
      | .panicked m => .panicked m
    | none => .ok (.error (.unknownValidatorId id))
  | none => .ok (.error (.unknownValidatorId id))

/-- `PublicApi::actual_address` (src/api/mod.rs, lines 128–132): the address
of the actual config's redeem script.  The Rust `Result` is always `Ok`. -/
def PublicApi.actualAddress (bc : Blockchain) : Address :=
  ((bc.snapshots 0).cfg.redeemScript).2

/-- `PublicApi::following_address` (src/api/mod.rs, lines 137–144): the
address of the following config's redeem script, `none` outside a
transition.  The Rust `Result` is always `Ok`. -/
def PublicApi.followingAddress (bc : Blockchain) : Option Address :=
  ((bc.snapshots 0).followingCfg).map (fun cfg => cfg.redeemScript.2)

/-- The loop of `PublicApi::nearest_lect` (src/api/mod.rs, lines 156–161):
a linear scan of `anchoring_tx_chain` in iteration order, returning the
first entry whose height is `≥ height`. -/
def nearestLectScan (chain : List (Nat × BitcoinTx)) (height : Nat) :
    Option BitcoinTx :=
  match chain with
  | [] => none
  | (txHeight, tx) :: rest =>
    if height ≤ txHeight then some tx else nearestLectScan rest height

/-- The number of chain entries the scan of `nearest_lect` inspects (one
`tx_height >= height` comparison per loop iteration). -/
def nearestLectSteps (chain : List (Nat × BitcoinTx)) (height : Nat) : Nat :=
  match chain with
  | [] => 0
  | (txHeight, _) :: rest =>
    if height ≤ txHeight then 1 else 1 + nearestLectSteps rest height

/-- `PublicApi::nearest_lect` (src/api/mod.rs, lines 150–162): takes one
snapshot and scans the anchoring transaction chain. -/
def PublicApi.nearestLect (bc : Blockchain) (height : Nat) : Option BitcoinTx :=
  nearestLectScan (bc.snapshots 0).txChain height

/-- `AnchoredBlockHeaderProof` — the three-component proof bundle. -/
structure AnchoredBlockHeaderProof where
  latestAuthorizedBlock : BlockProof
  toTable : MapProof
  toBlockHeader : ListProof
deriving DecidableEq, Repr

/-- The `u64` modulus. -/
def U64MOD : Nat := 2 ^ 64

/-- The body of `PublicApi::anchored_block_header_proof` computed over a
given snapshot (src/api/mod.rs, lines 170–188): `max_height` is the `u64`
value `block_hashes_by_height().len() - 1` (wrapping on the empty table);
the block-and-precommits proof for `max_height` is `unwrap`ped — a panic
when absent; the table proof and the block-header proof are generated from
the same snapshot.  No requested-height validation is performed. -/
def anchoredBlockHeaderProofAt (view : Snapshot) (height : Nat) :
    PanicOr AnchoredBlockHeaderProof :=
  let maxHeight := (view.blockHashes.length + (U64MOD - 1)) % U64MOD
  match blockAndPrecommits view maxHeight with
  | none => .panicked "called Option::unwrap on a None value"
  | some latest =>
    .ok { latestAuthorizedBlock := latest
          toTable := getProofToServiceTable view ANCHORING_SERVICE_ID 0
          toBlockHeader := listGetProof view.anchoredBlocks height }

/-- `PublicApi::anchored_block_header_proof` (src/api/mod.rs, lines
169–188): takes one snapshot (`view`) at the start and computes the whole
bundle from it. -/
def PublicApi.anchoredBlockHeaderProof (bc : Blockchain) (height : Nat) :
    PanicOr AnchoredBlockHeaderProof :=
  anchoredBlockHeaderProofAt (bc.snapshots 0) height

/-- A bitcoin transaction carrying the anchoring payload for height 100
(used as a concrete agreed lect in examples). -/
def txA : BitcoinTx := ⟨5, [100, 42], false⟩

/-- A second bitcoin transaction, a funding transaction. -/
def txB : BitcoinTx := ⟨6, [], true⟩

/-- A third bitcoin transaction, classifying as `Other`. -/
def txC : BitcoinTx := ⟨7, [1, 2, 3], false⟩

/-- A snapshot with four validators of which the first three report `txA`
and the fourth reports `txB`: the quorum threshold `floor(2*4/3) + 1 = 3`
is met by the group of `txA`. -/
def sQuorum : Snapshot where
  blockHashes := [11]
  stateRoot := 77
  cfg := ⟨[1, 2, 3, 4], 0⟩
  followingCfg := none
  lectsOf := fun key => if key ≤ 3 then [⟨90, txA⟩] else [⟨91, txB⟩]
  txChain := []
  anchoredBlocks := []

/-- A snapshot with four validators reporting three distinct transaction
ids, each group of cardinality at most two: below the threshold `3`. -/
def sSplit : Snapshot where
  blockHashes := [11]
  stateRoot := 77
  cfg := ⟨[1, 2, 3, 4], 0⟩
  followingCfg := none
  lectsOf := fun key =>
    if key ≤ 2 then [⟨90, txA⟩] else if key = 3 then [⟨91, txB⟩] else [⟨92, txC⟩]
  txChain := []
  anchoredBlocks := []

/-- A snapshot whose first (and only) validator has never reported a lect,
and with one committed block, an anchoring chain at heights 10, 50 and 200
and no anchored block hashes. -/
def sIdle : Snapshot where
  blockHashes := [42]
  stateRoot := 99
  cfg := ⟨[9], 0⟩
  followingCfg := some ⟨[9, 13], 1⟩
  lectsOf := fun _ => []
  txChain := [(10, txA), (50, txB), (200, txC)]
  anchoredBlocks := []

/-- A snapshot whose core block table is empty, as before any block is
committed. -/
def sEmpty : Snapshot where
  blockHashes := []
  stateRoot := 0
  cfg := ⟨[9], 0⟩
  followingCfg := none
  lectsOf := fun _ => []
  txChain := []
  anchoredBlocks := []

/-- A snapshot whose first validator reported the anchoring lect `txA`. -/
def sReported : Snapshot where
  blockHashes := [42]
  stateRoot := 99
  cfg := ⟨[9], 0⟩
  followingCfg := none
  lectsOf := fun key => if key = 9 then [⟨88, txA⟩] else []
  txChain := []
  anchoredBlocks := []

/-- A blockchain handle whose every snapshot call observes `sIdle`. -/
def bcIdle : Blockchain := ⟨fun _ => sIdle⟩

/-- A blockchain handle whose every snapshot call observes `sQuorum`. -/
def bcQuorum : Blockchain := ⟨fun _ => sQuorum⟩

/-- A blockchain handle whose every snapshot call observes `sSplit`. -/
def bcSplit : Blockchain := ⟨fun _ => sSplit⟩

/-- A blockchain handle whose every snapshot call observes `sEmpty`. -/
def bcEmpty : Blockchain := ⟨fun _ => sEmpty⟩

/-- A blockchain handle whose every snapshot call observes `sReported`. -/
def bcReported : Blockchain := ⟨fun _ => sReported⟩

/-- A blockchain handle whose first snapshot call observes `sIdle` but whose
later snapshot calls would observe the different state `sEmpty`. -/
def bcShifting : Blockchain := ⟨fun i => if i = 0 then sIdle else sEmpty⟩

/-- C10: a successful conversion of a bitcoin transaction to
`AnchoringInfo` keeps the transaction's id; an `Anchoring` transaction
yields `some` of its parsed payload, a `FundingTx` yields `none`, and the
payload is `none` exactly when the transaction classifies as a funding
transaction. -/
theorem c10_anchoring_info_from_tx (tx : BitcoinTx) (info : AnchoringInfo)
    (h : AnchoringInfo.fromTx tx = .ok info) :
    info.txid = tx.txid ∧
    ((∃ p, parsePayload tx.metadataOutput = some p ∧
        TxKind.classify tx = .anchoring tx p ∧ info.payload = some p) ∨
      (TxKind.classify tx = .fundingTx tx ∧ info.payload = none)) ∧
    (info.payload = none ↔ TxKind.classify tx = .fundingTx tx) := by
  cases hp : parsePayload tx.metadataOutput with
  | some p =>
    simp only [AnchoringInfo.fromTx, TxKind.classify, hp, PanicOr.ok.injEq] at h
    subst h
    simp [TxKind.classify, hp]
  | none =>
    cases hf : tx.fundingShape with
    | true =>
      simp only [AnchoringInfo.fromTx, TxKind.classify, hp, hf, if_true,
        PanicOr.ok.injEq] at h
      subst h
      simp [TxKind.classify, hp, hf]
    | false =>
      simp [AnchoringInfo.fromTx, TxKind.classify, hp, hf] at h

/-- C10 witness: the anchoring transaction `txA` converts to its id `5`
with the payload for height `100`. -/
theorem c10_witness :
    (⟨5, some ⟨100, 42⟩⟩ : AnchoringInfo).txid = txA.txid ∧
    ((∃ p, parsePayload txA.metadataOutput = some p ∧
        TxKind.classify txA = .anchoring txA p ∧
        (⟨5, some ⟨100, 42⟩⟩ : AnchoringInfo).payload = some p) ∨
      (TxKind.classify txA = .fundingTx txA ∧
        (⟨5, some ⟨100, 42⟩⟩ : AnchoringInfo).payload = none)) ∧
    ((⟨5, some ⟨100, 42⟩⟩ : AnchoringInfo).payload = none ↔
      TxKind.classify txA = .fundingTx txA) :=
  c10_anchoring_info_from_tx txA ⟨5, some ⟨100, 42⟩⟩ (by decide)

/-- C2 counterexample: the transaction `txC` classifies as `Other`, and the
conversion to `AnchoringInfo` panics on it instead of returning a
`ProtocolViolation` error value. -/
theorem c2_counterexample :
    TxKind.classify txC = .other txC ∧
    AnchoringInfo.fromTx txC = .panicked "Found incorrect lect transaction" := by
  constructor <;> rfl

/-- C2 amended: on a transaction classifying as `Other` the conversion to
`AnchoringInfo` panics the process with a message about the incorrect lect
transaction — it never returns a value (so it never silently coerces the
transaction to a default), but it also does not surface a recoverable
`ProtocolViolation` error value. -/
theorem c2_other_panics (tx otx : BitcoinTx)
    (h : TxKind.classify tx = .other otx) :
    AnchoringInfo.fromTx tx = .panicked "Found incorrect lect transaction" ∧
    ∀ info, AnchoringInfo.fromTx tx ≠ .ok info := by
  have hp : AnchoringInfo.fromTx tx = .panicked "Found incorrect lect transaction" := by
    simp only [AnchoringInfo.fromTx, h]
  exact ⟨hp, fun info hinfo => by simp [hp] at hinfo⟩

/-- C2 witness: a concrete `Other` transaction on which the conversion
panics. -/
theorem c2_other_panics_witness :
    AnchoringInfo.fromTx ⟨8, [1, 2, 3, 4], false⟩ =
      .panicked "Found incorrect lect transaction" ∧
    ∀ info, AnchoringInfo.fromTx ⟨8, [1, 2, 3, 4], false⟩ ≠ .ok info :=
  c2_other_panics ⟨8, [1, 2, 3, 4], false⟩ ⟨8, [1, 2, 3, 4], false⟩ (by decide)

/-- C8: the scan of `nearest_lect` inspects every entry of the chain when
the queried height is above all recorded heights — its cost is the chain
length, a linear scan, not a logarithmic ordered search. -/
theorem c8_nearest_lect_steps_linear (chain : List (Nat × BitcoinTx)) (h : Nat)
    (hall : ∀ e ∈ chain, e.1 < h) :
    nearestLectSteps chain h = chain.length := by
  induction chain with
  | nil => rfl
  | cons a rest ih =>
    have ha : ¬ h ≤ a.1 := by
      have := hall a (List.mem_cons_self a rest)
      omega
    obtain ⟨ht, tx⟩ := a
    simp only [nearestLectSteps, if_neg ha, List.length_cons]
    rw [ih (fun e he => hall e (List.mem_cons_of_mem _ he))]
    omega

/-- C8 witness: on the three-entry chain at heights 10, 50 and 200 queried
at height 300, the scan performs 3 comparisons. -/
theorem c8_witness :
    nearestLectSteps [(10, txA), (50, txB), (200, txC)] 300 = 3 :=
  c8_nearest_lect_steps_linear [(10, txA), (50, txB), (200, txC)] 300 (by decide)

/-- The scan of `nearest_lect` returns `none` exactly when every entry's
height is below the queried height. -/
theorem nearestLectScan_eq_none_iff (chain : List (Nat × BitcoinTx)) (h : Nat) :
    nearestLectScan chain h = none ↔ ∀ e ∈ chain, e.1 < h := by
  induction chain with
  | nil => simp [nearestLectScan]
  | cons a rest ih =>
    obtain ⟨ht, tx⟩ := a
    by_cases hle : h ≤ ht
    · simp only [nearestLectScan, if_pos hle]
      constructor
      · intro hc
        exact (Option.some_ne_none tx hc).elim
      · intro hall
        have := hall (ht, tx) (List.mem_cons_self _ _)
        omega
    · simp only [nearestLectScan, if_neg hle, ih]
      constructor
      · intro hall e he
        rcases List.mem_cons.mp he with rfl | hmem
        · simpa using by omega
        · exact hall e hmem
      · intro hall e he
        exact hall e (List.mem_cons_of_mem _ he)

/-- When the chain is sorted by strictly increasing height, a transaction
returned by the scan of `nearest_lect` sits at the smallest recorded height
that is at least the queried height. -/
theorem nearestLectScan_eq_some (chain : List (Nat × BitcoinTx)) (h : Nat)
    (hs : List.Pairwise (fun a b => a.1 < b.1) chain) (tx : BitcoinTx)
    (hfind : nearestLectScan chain h = some tx) :
    ∃ ht, (ht, tx) ∈ chain ∧ h ≤ ht ∧
      ∀ ht2 tx2, (ht2, tx2) ∈ chain → h ≤ ht2 → ht ≤ ht2 := by
  induction chain with
  | nil => simp [nearestLectScan] at hfind
  | cons a rest ih =>
    obtain ⟨ht0, tx0⟩ := a
    rw [List.pairwise_cons] at hs
    obtain ⟨hhead, htail⟩ := hs
    by_cases hle : h ≤ ht0
    · simp only [nearestLectScan, if_pos hle, Option.some.injEq] at hfind
      subst hfind
      refine ⟨ht0, List.mem_cons_self _ _, hle, ?_⟩
      intro ht2 tx2 hmem hh2
      rcases List.mem_cons.mp hmem with heq | hmem2
      · injection heq with h1 h2
        omega
      · exact (hhead (ht2, tx2) hmem2).le
    · simp only [nearestLectScan, if_neg hle] at hfind
      obtain ⟨ht, hmem, hht, hmin⟩ := ih htail hfind
      refine ⟨ht, List.mem_cons_of_mem _ hmem, hht, ?_⟩
      intro ht2 tx2 hmem2 hh2
      rcases List.mem_cons.mp hmem2 with heq | hmem3
      · injection heq with h1 h2
        omega
      · exact hmin ht2 tx2 hmem3 hh2

/-- In a chain sorted by strictly increasing height, every entry's height is
at most the last entry's height. -/
theorem chain_height_le_getLast (chain : List (Nat × BitcoinTx))
    (hs : List.Pairwise (fun a b => a.1 < b.1) chain) (e : Nat × BitcoinTx)
    (he : e ∈ chain) (last : Nat × BitcoinTx)
    (hl : chain.getLast? = some last) : e.1 ≤ last.1 := by
  induction chain with
  | nil => cases he
  | cons a rest ih =>
    rw [List.pairwise_cons] at hs
    cases rest with
    | nil =>
      rcases List.mem_singleton.mp he with rfl
      simp only [List.getLast?_singleton, Option.some.injEq] at hl
      subst hl
      exact le_refl _
    | cons b rest2 =>
      rw [List.getLast?_cons_cons] at hl
      rcases List.mem_cons.mp he with rfl | hmem
      · have hlastmem : last ∈ b :: rest2 := by
          have hne : (b :: rest2) ≠ [] := by simp
          have := List.getLast?_eq_getLast (b :: rest2) hne
          rw [this, Option.some.injEq] at hl
          rw [← hl]
          exact List.getLast_mem hne
        exact (hs.1 last hlastmem).le
      · exact ih hs.2 hmem hl

/-- C4: when the anchoring transaction chain is stored in strictly
increasing height order, `nearest_lect h` returns an entry at the smallest
recorded chain height that is at least `h`, and returns `none` exactly when
the chain is empty or `h` exceeds the height of the last entry. -/
theorem c4_nearest_lect (bc : Blockchain) (h : Nat)
    (hs : List.Pairwise (fun a b => a.1 < b.1) (bc.snapshots 0).txChain) :
    (∀ tx, PublicApi.nearestLect bc h = some tx →
      ∃ ht, (ht, tx) ∈ (bc.snapshots 0).txChain ∧ h ≤ ht ∧
        ∀ ht2 tx2, (ht2, tx2) ∈ (bc.snapshots 0).txChain → h ≤ ht2 → ht ≤ ht2) ∧
    (PublicApi.nearestLect bc h = none ↔
      (bc.snapshots 0).txChain = [] ∨
        ∃ last, (bc.snapshots 0).txChain.getLast? = some last ∧ last.1 < h) := by
  constructor
  · intro tx htx
    exact nearestLectScan_eq_some _ h hs tx htx
  · rw [PublicApi.nearestLect, nearestLectScan_eq_none_iff]
    constructor
    · intro hall
      by_cases hnil : (bc.snapshots 0).txChain = []
      · exact Or.inl hnil
      · refine Or.inr ?_
        have hlast := List.getLast?_eq_getLast _ hnil
        exact ⟨_, hlast, hall _ (List.getLast_mem hnil)⟩
    · rintro (hnil | ⟨last, hlast, hlt⟩) e he
      · rw [hnil] at he
        cases he
      · have := chain_height_le_getLast _ hs e he last hlast
        omega

/-- Unfolding of `collectLects` into its `find?` form. -/
theorem collectLects_eq (s : Snapshot) :
    collectLects s =
      (((latestLects s).filterMap id).map (fun c => c.tx)).find?
        (fun tx => decide (threshold s.cfg.anchoringKeys.length ≤
          lectCount (latestLects s) tx.txid)) := rfl

/-- Unfolding of `PublicApi.actualLect` over the snapshot it takes. -/
theorem actualLect_eq (bc : Blockchain) :
    PublicApi.actualLect bc =
      (match collectLects (bc.snapshots 0) with
        | none => .ok none
        | some tx =>
          match AnchoringInfo.fromTx tx with
          | .ok info => .ok (some info)
          | .panicked m => .panicked m) := rfl

/-- A transaction id with a positive agreement count has a reporting
validator whose latest lect names it. -/
theorem lectCount_pos (latest : List (Option LectContent)) (t : TxId)
    (hpos : 0 < lectCount latest t) :
    ∃ c, some c ∈ latest ∧ c.tx.txid = t := by
  rw [lectCount, List.countP_pos_iff] at hpos
  obtain ⟨o, ho, hp⟩ := hpos
  cases o with
  | none => simp at hp
  | some c => exact ⟨c, ho, by simpa using hp⟩

/-- C1: with `n = len(anchoring_keys)` validators and the most recent lect
of each validator, `actual_lect` returns `none` when no transaction id is
reported by at least `threshold n = floor(2*n/3) + 1` validators, and when
some id meets the threshold it returns the information of a reported
transaction of that winning group, classified through `AnchoringInfo.fromTx`
(which applies the transaction classifier). -/
theorem c1_actual_lect (bc : Blockchain) :
    ((∀ t, lectCount (latestLects (bc.snapshots 0)) t <
        threshold (bc.snapshots 0).cfg.anchoringKeys.length) →
      PublicApi.actualLect bc = .ok none) ∧
    ((∃ t, threshold (bc.snapshots 0).cfg.anchoringKeys.length ≤
        lectCount (latestLects (bc.snapshots 0)) t) →
      ∃ tx, (∃ c, some c ∈ latestLects (bc.snapshots 0) ∧ c.tx = tx) ∧
        threshold (bc.snapshots 0).cfg.anchoringKeys.length ≤
          lectCount (latestLects (bc.snapshots 0)) tx.txid ∧
        PublicApi.actualLect bc =
          (match AnchoringInfo.fromTx tx with
            | .ok info => .ok (some info)
            | .panicked m => .panicked m)) := by
  constructor
  · intro hlt
    have hnone : collectLects (bc.snapshots 0) = none := by
      rw [collectLects_eq]
      apply List.find?_eq_none.mpr
      intro tx _
      simpa using Nat.not_le.mpr (hlt tx.txid)
    rw [actualLect_eq, hnone]
  · rintro ⟨t, ht⟩
    have hpos : 0 < lectCount (latestLects (bc.snapshots 0)) t :=
      Nat.lt_of_lt_of_le (Nat.succ_pos _) ht
    obtain ⟨c, hc, hct⟩ := lectCount_pos _ t hpos
    have hmem : c.tx ∈ ((latestLects (bc.snapshots 0)).filterMap id).map
        (fun c => c.tx) := by
      apply List.mem_map_of_mem
      rw [List.mem_filterMap]
      exact ⟨some c, hc, rfl⟩
    have hsome : ((((latestLects (bc.snapshots 0)).filterMap id).map
        (fun c => c.tx)).find?
        (fun tx => decide (threshold (bc.snapshots 0).cfg.anchoringKeys.length ≤
          lectCount (latestLects (bc.snapshots 0)) tx.txid))).isSome := by
      apply List.find?_isSome.mpr
      refine ⟨c.tx, hmem, ?_⟩
      rw [hct]
      simpa using ht
    obtain ⟨tx, hfind⟩ := Option.isSome_iff_exists.mp hsome
    have hptx := List.find?_some hfind
    have hmemtx := List.mem_of_find?_eq_some hfind
    rw [List.mem_map] at hmemtx
    obtain ⟨c2, hc2, rfl⟩ := hmemtx
    rw [List.mem_filterMap] at hc2
    obtain ⟨o, ho, hoc⟩ := hc2
    have ho2 : some c2 ∈ latestLects (bc.snapshots 0) := by
      rw [show o = some c2 from hoc] at ho
      exact ho
    refine ⟨c2.tx, ⟨c2, ho2, rfl⟩, by simpa using hptx, ?_⟩
    rw [actualLect_eq, collectLects_eq, hfind]

/-- C1 witness: with four validators of which three report the anchoring
transaction `txA` (threshold `floor(2*4/3) + 1 = 3`), `actual_lect` returns
the information of a transaction of the winning group. -/
theorem c1_witness :
    ∃ tx, (∃ c, some c ∈ latestLects (bcQuorum.snapshots 0) ∧ c.tx = tx) ∧
      threshold (bcQuorum.snapshots 0).cfg.anchoringKeys.length ≤
        lectCount (latestLects (bcQuorum.snapshots 0)) tx.txid ∧
      PublicApi.actualLect bcQuorum =
        (match AnchoringInfo.fromTx tx with
          | .ok info => .ok (some info)
          | .panicked m => .panicked m) :=
  (c1_actual_lect bcQuorum).2 ⟨5, by decide⟩

/-- C4 witness: on the chain at heights 10, 50 and 200 queried at height
60, the returned entry is minimal among heights at least 60, and the
`none`-characterisation holds. -/
theorem c4_witness :
    (∀ tx, PublicApi.nearestLect bcIdle 60 = some tx →
      ∃ ht, (ht, tx) ∈ (bcIdle.snapshots 0).txChain ∧ 60 ≤ ht ∧
        ∀ ht2 tx2, (ht2, tx2) ∈ (bcIdle.snapshots 0).txChain → 60 ≤ ht2 → ht ≤ ht2) ∧
    (PublicApi.nearestLect bcIdle 60 = none ↔
      (bcIdle.snapshots 0).txChain = [] ∨
        ∃ last, (bcIdle.snapshots 0).txChain.getLast? = some last ∧ last.1 < 60) :=
  c4_nearest_lect bcIdle 60 (by decide)


/-- Unfolding of `PublicApi.anchoredBlockHeaderProof` over the snapshot it
takes at the start. -/
theorem publicProof_eq (bc : Blockchain) (h : Nat) :
    PublicApi.anchoredBlockHeaderProof bc h =
      anchoredBlockHeaderProofAt (bc.snapshots 0) h := rfl

/-- Unfolding of `anchoredBlockHeaderProofAt` into its match form. -/
theorem anchoredBlockHeaderProofAt_eq (view : Snapshot) (h : Nat) :
    anchoredBlockHeaderProofAt view h =
      (match blockAndPrecommits view
          ((view.blockHashes.length + (U64MOD - 1)) % U64MOD) with
        | none => .panicked "called Option::unwrap on a None value"
        | some latest =>
          .ok ⟨latest, getProofToServiceTable view ANCHORING_SERVICE_ID 0,
            listGetProof view.anchoredBlocks h⟩) := rfl

/-- C9: the block-header-proof operation panics — it does not return an
error value — whenever the block table is empty (the `u64` expression
`len() - 1` underflows and the proof lookup finds nothing) or, more
generally, whenever the block-and-precommits proof of the wrapped maximal
height is absent; when that proof is present it returns a bundle, for every
requested height. -/
theorem c9_block_header_proof_panics (bc : Blockchain) (h : Nat) :
    ((bc.snapshots 0).blockHashes = [] →
      PublicApi.anchoredBlockHeaderProof bc h =
        .panicked "called Option::unwrap on a None value") ∧
    (blockAndPrecommits (bc.snapshots 0)
        (((bc.snapshots 0).blockHashes.length + (U64MOD - 1)) % U64MOD) = none →
      PublicApi.anchoredBlockHeaderProof bc h =
        .panicked "called Option::unwrap on a None value") ∧
    (∀ p, blockAndPrecommits (bc.snapshots 0)
        (((bc.snapshots 0).blockHashes.length + (U64MOD - 1)) % U64MOD) = some p →
      PublicApi.anchoredBlockHeaderProof bc h =
        .ok ⟨p, getProofToServiceTable (bc.snapshots 0) ANCHORING_SERVICE_ID 0,
          listGetProof (bc.snapshots 0).anchoredBlocks h⟩) := by
  have hmain : ∀ r, blockAndPrecommits (bc.snapshots 0)
      (((bc.snapshots 0).blockHashes.length + (U64MOD - 1)) % U64MOD) = r →
      PublicApi.anchoredBlockHeaderProof bc h =
        (match r with
          | none => .panicked "called Option::unwrap on a None value"
          | some latest =>
            .ok ⟨latest,
              getProofToServiceTable (bc.snapshots 0) ANCHORING_SERVICE_ID 0,
              listGetProof (bc.snapshots 0).anchoredBlocks h⟩) := by
    intro r hr
    rw [publicProof_eq, anchoredBlockHeaderProofAt_eq, hr]
  refine ⟨?_, fun hn => hmain none hn, fun p hp => hmain (some p) hp⟩
  intro hempty
  apply hmain none
  simp [blockAndPrecommits, hempty]

/-- C9 witness: on the snapshot with an empty block table the operation
panics at requested height 5. -/
theorem c9_witness :
    PublicApi.anchoredBlockHeaderProof bcEmpty 5 =
      .panicked "called Option::unwrap on a None value" :=
  (c9_block_header_proof_panics bcEmpty 5).1 rfl

/-- C3 counterexample: on a snapshot whose highest committed height is 0,
the operation queried at height 5 — beyond the highest committed height —
returns a proof bundle instead of failing with a `HeightOutOfRange` error
(its result type has no error case at all). -/
theorem c3_counterexample :
    (bcIdle.snapshots 0).blockHashes.length - 1 < 5 ∧
    PublicApi.anchoredBlockHeaderProof bcIdle 5 =
      .ok ⟨⟨0, 42⟩, ⟨99, 3, 0⟩, .absence 5 0⟩ := by
  exact ⟨by decide, rfl⟩

/-- C3 amended: the operation performs no height-range validation and has
no error return: on every snapshot with at least one committed block (and a
block table of `u64` size) and for every requested height — including
heights beyond the highest committed one — it returns a bundle, whose
table-entry component is a non-membership proof when no anchor entry exists
at that height. -/
theorem c3_no_height_validation (bc : Blockchain) (h : Nat)
    (h1 : (bc.snapshots 0).blockHashes ≠ [])
    (h2 : (bc.snapshots 0).blockHashes.length ≤ U64MOD) :
    ∃ bundle, PublicApi.anchoredBlockHeaderProof bc h = .ok bundle ∧
      ((bc.snapshots 0).anchoredBlocks.length ≤ h →
        bundle.toBlockHeader =
          .absence h (bc.snapshots 0).anchoredBlocks.length) := by
  have hn : 0 < (bc.snapshots 0).blockHashes.length := List.length_pos.mpr h1
  have hU : U64MOD = 18446744073709551616 := by norm_num [U64MOD]
  have hmod : ((bc.snapshots 0).blockHashes.length + (U64MOD - 1)) % U64MOD =
      (bc.snapshots 0).blockHashes.length - 1 := by
    rw [hU] at h2 ⊢
    omega
  have hlt : (bc.snapshots 0).blockHashes.length - 1 <
      (bc.snapshots 0).blockHashes.length := by omega
  refine ⟨⟨⟨(bc.snapshots 0).blockHashes.length - 1,
      (bc.snapshots 0).blockHashes.get ⟨(bc.snapshots 0).blockHashes.length - 1, hlt⟩⟩,
    getProofToServiceTable (bc.snapshots 0) ANCHORING_SERVICE_ID 0,
    listGetProof (bc.snapshots 0).anchoredBlocks h⟩, ?_, ?_⟩
  · rw [publicProof_eq, anchoredBlockHeaderProofAt_eq, hmod]
    simp only [blockAndPrecommits, dif_pos hlt]
  · intro hle
    simp only [listGetProof, dif_neg (Nat.not_lt.mpr hle)]

/-- C3 witness: a snapshot with one committed block and an empty anchor
table queried beyond it yields a bundle whose table-entry component is a
non-membership proof. -/
theorem c3_witness :
    ∃ bundle, PublicApi.anchoredBlockHeaderProof bcReported 7 = .ok bundle ∧
      ((bcReported.snapshots 0).anchoredBlocks.length ≤ 7 →
        bundle.toBlockHeader =
          .absence 7 (bcReported.snapshots 0).anchoredBlocks.length) :=
  c3_no_height_validation bcReported 7 (by decide) (by decide)

/-- C6: the block-header-proof operation consumes only the single snapshot
taken at its start — two blockchain handles whose first snapshot call
observes the same state give identical results, whatever later snapshot
calls would observe — and each of the three components of a returned bundle
is the one computed from that same snapshot. -/
theorem c6_single_snapshot (bc bc2 : Blockchain) (h : Nat)
    (hs : bc.snapshots 0 = bc2.snapshots 0) :
    PublicApi.anchoredBlockHeaderProof bc h =
      PublicApi.anchoredBlockHeaderProof bc2 h ∧
    PublicApi.anchoredBlockHeaderProof bc h =
      anchoredBlockHeaderProofAt (bc.snapshots 0) h ∧
    ∀ bundle, PublicApi.anchoredBlockHeaderProof bc h = .ok bundle →
      blockAndPrecommits (bc.snapshots 0)
          (((bc.snapshots 0).blockHashes.length + (U64MOD - 1)) % U64MOD) =
        some bundle.latestAuthorizedBlock ∧
      bundle.toTable =
        getProofToServiceTable (bc.snapshots 0) ANCHORING_SERVICE_ID 0 ∧
      bundle.toBlockHeader = listGetProof (bc.snapshots 0).anchoredBlocks h := by
  refine ⟨by rw [publicProof_eq, publicProof_eq, hs], rfl, ?_⟩
  intro bundle hb
  rw [publicProof_eq, anchoredBlockHeaderProofAt_eq] at hb
  cases hbp : blockAndPrecommits (bc.snapshots 0)
      (((bc.snapshots 0).blockHashes.length + (U64MOD - 1)) % U64MOD) with
  | none =>
    rw [hbp] at hb
    exact absurd hb (by simp)
  | some p =>
    rw [hbp] at hb
    simp only [PanicOr.ok.injEq] at hb
    subst hb
    exact ⟨rfl, rfl, rfl⟩

/-- C6 witness: a handle whose later snapshot calls would observe a
different (empty) state gives the same bundle as one that always observes
the first state; the components come from that first snapshot. -/
theorem c6_witness :
    PublicApi.anchoredBlockHeaderProof bcShifting 5 =
      PublicApi.anchoredBlockHeaderProof bcIdle 5 ∧
    PublicApi.anchoredBlockHeaderProof bcShifting 5 =
      anchoredBlockHeaderProofAt (bcShifting.snapshots 0) 5 ∧
    ∀ bundle, PublicApi.anchoredBlockHeaderProof bcShifting 5 = .ok bundle →
      blockAndPrecommits (bcShifting.snapshots 0)
          (((bcShifting.snapshots 0).blockHashes.length + (U64MOD - 1)) % U64MOD) =
        some bundle.latestAuthorizedBlock ∧
      bundle.toTable =
        getProofToServiceTable (bcShifting.snapshots 0) ANCHORING_SERVICE_ID 0 ∧
      bundle.toBlockHeader =
        listGetProof (bcShifting.snapshots 0).anchoredBlocks 5 :=
  c6_single_snapshot bcShifting bcIdle 5 rfl

/-- C7: `redeem_script` is deterministic — it is a function of the config's
key set alone, so identical key sets give byte-identical script and address
— and consequently `actual_address` and `following_address` evaluated on
the same snapshot give identical addresses. -/
theorem c7_redeem_script_deterministic (cfg cfg2 : AnchoringConfig)
    (bc bc2 : Blockchain)
    (hk : cfg.anchoringKeys = cfg2.anchoringKeys)
    (hs : bc.snapshots 0 = bc2.snapshots 0) :
    cfg.redeemScript = cfg2.redeemScript ∧
    PublicApi.actualAddress bc = PublicApi.actualAddress bc2 ∧
    PublicApi.followingAddress bc = PublicApi.followingAddress bc2 := by
  refine ⟨?_, ?_, ?_⟩
  · simp only [AnchoringConfig.redeemScript, hk]
  · simp only [PublicApi.actualAddress, hs]
  · simp only [PublicApi.followingAddress, hs]

/-- C7 witness: two configs equal on their key lists but differing
elsewhere give the same script and address, and the two address queries are
stable on the same snapshot. -/
theorem c7_witness :
    (⟨[1, 2], 0⟩ : AnchoringConfig).redeemScript =
      (⟨[1, 2], 7⟩ : AnchoringConfig).redeemScript ∧
    PublicApi.actualAddress bcReported = PublicApi.actualAddress bcReported ∧
    PublicApi.followingAddress bcReported =
      PublicApi.followingAddress bcReported :=
  c7_redeem_script_deterministic ⟨[1, 2], 0⟩ ⟨[1, 2], 7⟩ bcReported bcReported
    rfl rfl

/-- Unfolding of `PublicApi.currentLectOfValidator` into its match form. -/
theorem currentLect_eq (bc : Blockchain) (id : Nat) :
    PublicApi.currentLectOfValidator bc id =
      (match (bc.snapshots 0).cfg.anchoringKeys.get? id with
        | some key =>
          match ((bc.snapshots 0).lectsOf key).getLast? with
          | some lect =>
            (match LectInfo.fromContent lect with
              | .ok info => .ok (.ok info)
              | .panicked m => .panicked m)
          | none => .ok (.error (.unknownValidatorId id))
        | none => .ok (.error (.unknownValidatorId id))) := rfl

/-- C5 counterexample: on a snapshot with one validator who never reported,
the in-range index 0 yields the very same `UnknownValidatorId` error as the
out-of-range index 1 — the valid absence-of-data case is not distinguished
from the unknown-validator case. -/
theorem c5_counterexample :
    0 < (bcIdle.snapshots 0).cfg.anchoringKeys.length ∧
    (bcIdle.snapshots 0).lectsOf 9 = [] ∧
    PublicApi.currentLectOfValidator bcIdle 0 =
      .ok (.error (.unknownValidatorId 0)) ∧
    PublicApi.currentLectOfValidator bcIdle 1 =
      .ok (.error (.unknownValidatorId 1)) :=
  ⟨by decide, rfl, rfl, rfl⟩

/-- C5 amended: the lookup returns the most-recently recorded lect of an
in-range validator that has reported, and an out-of-range index yields the
`UnknownValidatorId` error value (not a panic); but an in-range validator
that has never reported yields that same `UnknownValidatorId` error, so the
two conditions are not distinguished. -/
theorem c5_lect_of_validator (bc : Blockchain) (id : Nat) :
    ((bc.snapshots 0).cfg.anchoringKeys.length ≤ id →
      PublicApi.currentLectOfValidator bc id =
        .ok (.error (.unknownValidatorId id))) ∧
    (∀ key lect, (bc.snapshots 0).cfg.anchoringKeys.get? id = some key →
      ((bc.snapshots 0).lectsOf key).getLast? = some lect →
      PublicApi.currentLectOfValidator bc id =
        (match LectInfo.fromContent lect with
          | .ok info => .ok (.ok info)
          | .panicked m => .panicked m)) ∧
    (∀ key, (bc.snapshots 0).cfg.anchoringKeys.get? id = some key →
      ((bc.snapshots 0).lectsOf key).getLast? = none →
      PublicApi.currentLectOfValidator bc id =
        .ok (.error (.unknownValidatorId id))) := by
  refine ⟨?_, ?_, ?_⟩
  · intro hlen
    have hget : (bc.snapshots 0).cfg.anchoringKeys.get? id = none := by
      rw [List.get?_eq_none]
      exact hlen
    rw [currentLect_eq, hget]
  · intro key lect hk hl
    simp only [currentLect_eq, hk, hl]
  · intro key hk hl
    simp only [currentLect_eq, hk, hl]

/-- C5 witness: the single validator of `sReported` has reported the
anchoring lect `txA`, and index 0 resolves to its latest record. -/
theorem c5_witness :
    PublicApi.currentLectOfValidator bcReported 0 =
      (match LectInfo.fromContent ⟨88, txA⟩ with
        | .ok info => .ok (.ok info)
        | .panicked m => .panicked m) :=
  (c5_lect_of_validator bcReported 0).2.1 9 ⟨88, txA⟩ rfl rfl
